import Mathlib

/- Verification of the spaced-repetition core of the AS CS Vocabulary
Flashcards application: the SM-2 scheduler and due predicate
(src/utils/sm2.ts), the session queue manager (App.tsx), the answer
verification engine and quiz generator (Quiz.tsx), against the
natural-language specification.

JavaScript numbers are modelled as rationals; all arithmetic that occurs
here is exact.  The source reads the wall clock through the ambient global
Date.now(); that ambient reading is made an explicit parameter
(ambientNow) of the embedded functions. -/

/-- Per-term spaced-repetition state (interface UserProgress, types.ts). -/
structure UserProgress where
  termId : String
  interval : ℚ
  repetition : ℚ
  efactor : ℚ
  nextReviewDate : ℚ
  deriving DecidableEq

/-- Embedding of calculateNextReview (src/utils/sm2.ts, lines 3-52).
The source mutates local variables; each mutation becomes a primed let.
rating is typed Rating = 0|1|2|3|4|5 in TypeScript, but that annotation is
erased at runtime and the function performs no validation, so rating is
modelled as an arbitrary number.  Math.round rounds half away from zero
upward, which on the nonnegative values arising here agrees with
Mathlib's round (floor of x + 1/2).  Date.now() is the ambientNow
parameter. -/
def calculateNextReview (currentProgress : Option UserProgress) (rating : ℚ)
    (termId : String) (ambientNow : ℚ) : UserProgress :=
  let oneDay : ℚ := 24 * 60 * 60 * 1000
  let repetition : ℚ := match currentProgress with
    | none => 0
    | some p => p.repetition
  let interval : ℚ := match currentProgress with
    | none => 0
    | some p => p.interval
  let efactor : ℚ := match currentProgress with
    | none => 2.5
    | some p => p.efactor
  let interval' : ℚ :=
    if 3 ≤ rating then
      if repetition = 0 then (if rating = 5 then 4 else 1)
      else if repetition = 1 then 6
      else ((round (interval * efactor) : ℤ) : ℚ)
    else 1
  let repetition' : ℚ := if 3 ≤ rating then repetition + 1 else 0
  let efactor' : ℚ := efactor + (0.1 - (5 - rating) * (0.08 + (5 - rating) * 0.02))
  let efactor'' : ℚ := if efactor' < 1.3 then 1.3 else efactor'
  { termId := termId
    interval := interval'
    repetition := repetition'
    efactor := efactor''
    nextReviewDate := ambientNow + interval' * oneDay }

/-- Embedding of isDue (src/utils/sm2.ts, lines 54-57); Date.now() is the
ambientNow parameter. -/
def isDue (progress : Option UserProgress) (ambientNow : ℚ) : Bool :=
  match progress with
  | none => true
  | some p => decide (p.nextReviewDate ≤ ambientNow)

/-- Folding calculateNextReview over a finite sequence of ratings, as the
session loop does one rating at a time (handleRate persists each result
and feeds it back in as currentProgress on the next review). -/
def advanceSeq (p : Option UserProgress) (ratings : List ℚ)
    (termId : String) (ambientNow : ℚ) : Option UserProgress :=
  ratings.foldl (fun acc r => some (calculateNextReview acc r termId ambientNow)) p

/-- Claim C1 counterexample: with previous state repetition 1, interval 6,
easeFactor 2.5 and rating 4, the code returns interval 6 (the
repetition == 1 branch), not 15 = round(6 x 2.5) as the claim states;
repetition does become 2. -/
theorem C1_counterexample :
    (calculateNextReview (some ⟨"t", 6, 1, 2.5, 0⟩) 4 "t" 0).repetition = 2 ∧
    (calculateNextReview (some ⟨"t", 6, 1, 2.5, 0⟩) 4 "t" 0).interval = 6 ∧
    (calculateNextReview (some ⟨"t", 6, 1, 2.5, 0⟩) 4 "t" 0).interval ≠ 15 := by
  refine ⟨?_, ?_, ?_⟩ <;> norm_num [calculateNextReview]

/-- Claim C1 amended: calling calculateNextReview with previous state
repetition 1, interval 6, easeFactor 2.5 and rating 4 returns
repetition 2 and interval 6: the repetition == 1 branch fixes the
interval at 6; round(interval x easeFactor) applies only from
repetition 2 onward. -/
theorem C1_amended_rep1_gives_interval_six (termId : String) (prevDate ambientNow : ℚ) :
    (calculateNextReview (some ⟨termId, 6, 1, 2.5, prevDate⟩) 4 termId ambientNow).repetition = 2 ∧
    (calculateNextReview (some ⟨termId, 6, 1, 2.5, prevDate⟩) 4 termId ambientNow).interval = 6 := by
  constructor <;> norm_num [calculateNextReview]

/-- Claim C3 counterexample: now is not an explicit parameter of the
source functions.  calculateNextReview's explicit TypeScript arguments
are (currentProgress, rating, termId); with those held identical, two
calls under different ambient Date.now() readings return different
records, so the result does depend on the ambient wall clock. -/
theorem C3_counterexample :
    calculateNextReview none 4 "t" 0 ≠ calculateNextReview none 4 "t" 86400000 := by
  intro h
  have hnext := congrArg UserProgress.nextReviewDate h
  norm_num [calculateNextReview] at hnext

/-- Claim C3 amended: the scheduler and due predicate read the wall clock
ambiently via Date.now(); modelling that reading as an explicit input,
they are deterministic: repetition, interval, easeFactor and termId
depend only on (previous progress, rating, termId), and nextReviewDate
equals the ambient reading plus interval days; isDue depends only on the
progress record and the ambient reading. -/
theorem C3_amended_deterministic_given_clock (p : Option UserProgress) (r : ℚ)
    (tid : String) (n₁ n₂ : ℚ) :
    (calculateNextReview p r tid n₁).repetition = (calculateNextReview p r tid n₂).repetition ∧
    (calculateNextReview p r tid n₁).interval = (calculateNextReview p r tid n₂).interval ∧
    (calculateNextReview p r tid n₁).efactor = (calculateNextReview p r tid n₂).efactor ∧
    (calculateNextReview p r tid n₁).termId = (calculateNextReview p r tid n₂).termId ∧
    (calculateNextReview p r tid n₁).nextReviewDate =
      n₁ + (calculateNextReview p r tid n₁).interval * (24 * 60 * 60 * 1000) ∧
    isDue p n₁ = (match p with
      | none => true
      | some u => decide (u.nextReviewDate ≤ n₁)) :=
  ⟨rfl, rfl, rfl, rfl, rfl, rfl⟩

/-- Claim C4 counterexample: a call with rating 7 (outside {0..5}) is not
rejected: it returns an ordinary progress record, treated as a successful
review (repetition 1, ease raised to 2.68), and that record differs from
the result of every in-range rating, so the rating was not clamped or
coerced into range either. -/
theorem C4_counterexample :
    calculateNextReview none 7 "t" 0 =
      { termId := "t", interval := 1, repetition := 1, efactor := 2.68,
        nextReviewDate := 86400000 } ∧
    calculateNextReview none 7 "t" 0 ≠ calculateNextReview none 0 "t" 0 ∧
    calculateNextReview none 7 "t" 0 ≠ calculateNextReview none 1 "t" 0 ∧
    calculateNextReview none 7 "t" 0 ≠ calculateNextReview none 2 "t" 0 ∧
    calculateNextReview none 7 "t" 0 ≠ calculateNextReview none 3 "t" 0 ∧
    calculateNextReview none 7 "t" 0 ≠ calculateNextReview none 4 "t" 0 ∧
    calculateNextReview none 7 "t" 0 ≠ calculateNextReview none 5 "t" 0 := by
  refine ⟨?_, ?_, ?_, ?_, ?_, ?_, ?_⟩ <;>
    norm_num [calculateNextReview, UserProgress.mk.injEq]

/-- Claim C4 amended: the code performs no runtime validation of the
rating (the {0..5} restriction is a compile-time TypeScript annotation
only): out-of-range ratings are neither rejected nor clamped but flow
through the same branches — any rating above 5 is processed as a success
(from the default state: repetition 1, interval 1), any rating below 0 as
a failure (repetition 0, interval 1). -/
theorem C4_amended_no_validation (r : ℚ) (tid : String) (n : ℚ) :
    (5 < r → (calculateNextReview none r tid n).repetition = 1 ∧
             (calculateNextReview none r tid n).interval = 1) ∧
    (r < 0 → (calculateNextReview none r tid n).repetition = 0 ∧
             (calculateNextReview none r tid n).interval = 1) := by
  constructor
  · intro hr
    have h3 : (3:ℚ) ≤ r := by linarith
    have h5 : ¬ r = 5 := by intro h; rw [h] at hr; norm_num at hr
    constructor <;> simp [calculateNextReview, h3, h5]
  · intro hr
    have h3 : ¬ (3:ℚ) ≤ r := by linarith
    constructor <;> simp [calculateNextReview, h3]

/-- Witness for the amended C4 theorem at the concrete out-of-range
ratings 7 and -1. -/
theorem C4_amended_witness :
    ((calculateNextReview none 7 "t" 0).repetition = 1 ∧
     (calculateNextReview none 7 "t" 0).interval = 1) ∧
    ((calculateNextReview none (-1) "t" 0).repetition = 0 ∧
     (calculateNextReview none (-1) "t" 0).interval = 1) :=
  ⟨(C4_amended_no_validation 7 "t" 0).1 (by norm_num),
   (C4_amended_no_validation (-1) "t" 0).2 (by norm_num)⟩

/-- One rating step always leaves the ease factor at or above 1.3: the
clamp in calculateNextReview is the last write to efactor. -/
theorem efactor_ge_floor (p : Option UserProgress) (r : ℚ) (tid : String) (n : ℚ) :
    (1.3:ℚ) ≤ (calculateNextReview p r tid n).efactor := by
  simp only [calculateNextReview]
  split_ifs with h
  · norm_num
  · exact le_of_not_lt h

/-- The ease floor is preserved by any fold of ratings, whatever the
ratings are. -/
theorem advanceSeq_efactor_aux :
    ∀ (ratings : List ℚ) (p : Option UserProgress) (tid : String) (n : ℚ),
      (p = none ∨ ∃ u, p = some u ∧ (1.3:ℚ) ≤ u.efactor) →
      ∀ q, advanceSeq p ratings tid n = some q → (1.3:ℚ) ≤ q.efactor := by
  intro ratings
  induction ratings with
  | nil =>
    intro p tid n hstart q hq
    simp only [advanceSeq, List.foldl_nil] at hq
    rcases hstart with h | ⟨u, hu, hef⟩
    · rw [h] at hq; exact absurd hq (by simp)
    · rw [hu] at hq
      have := Option.some.inj hq
      rw [← this]
      exact hef
  | cons r rs ih =>
    intro p tid n hstart q hq
    refine ih (some (calculateNextReview p r tid n)) tid n
      (Or.inr ⟨_, rfl, efactor_ge_floor p r tid n⟩) q ?_
    simpa [advanceSeq] using hq

/-- Claim C6: starting from an absent record (seeded at 2.5) or any
record with easeFactor at least 1.3, every finite sequence of ratings in
{0..5} applied through calculateNextReview leaves the easeFactor at or
above 1.3. -/
theorem C6_efactor_never_below_floor (p : Option UserProgress) (ratings : List ℚ)
    (tid : String) (n : ℚ)
    (hstart : p = none ∨ ∃ u, p = some u ∧ (1.3:ℚ) ≤ u.efactor)
    (hratings : ∀ r ∈ ratings, r = 0 ∨ r = 1 ∨ r = 2 ∨ r = 3 ∨ r = 4 ∨ r = 5) :
    ∀ q, advanceSeq p ratings tid n = some q → (1.3:ℚ) ≤ q.efactor :=
  advanceSeq_efactor_aux ratings p tid n hstart

/-- Witness for C6 at the concrete start state absent, rating sequence
[4]. -/
theorem C6_witness : (1.3:ℚ) ≤ (calculateNextReview none 4 "w" 0).efactor :=
  C6_efactor_never_below_floor none [4] "w" 0 (Or.inl rfl)
    (by
      intro r hr
      rw [List.mem_singleton] at hr
      subst hr
      norm_num)
    (calculateNextReview none 4 "w" 0) rfl

/-- Claim C7 counterexample: the record with repetition 2, interval 0
(allowed by the claim, which only requires interval at least 0) rated 3
yields interval round(0 x 2.5) = 0, which is not strictly positive. -/
theorem C7_counterexample :
    (calculateNextReview (some ⟨"t", 0, 2, 2.5, 0⟩) 3 "t" 0).repetition = 2 + 1 ∧
    ¬ 0 < (calculateNextReview (some ⟨"t", 0, 2, 2.5, 0⟩) 3 "t" 0).interval := by
  constructor <;> norm_num [calculateNextReview]

/-- Claim C7 amended: for every progress state that is absent or a record
with repetition at least 0, interval at least 1 and easeFactor at least
1.3, and every rating at least 3, calculateNextReview increments
repetition by exactly 1 and returns a strictly positive interval. -/
theorem C7_amended_success_increments (p : Option UserProgress) (r : ℚ)
    (tid : String) (n : ℚ)
    (hvalid : ∀ u, p = some u →
      0 ≤ u.repetition ∧ 1 ≤ u.interval ∧ (1.3:ℚ) ≤ u.efactor)
    (hr : 3 ≤ r) :
    (calculateNextReview p r tid n).repetition =
      (match p with | none => 0 | some u => u.repetition) + 1 ∧
    0 < (calculateNextReview p r tid n).interval := by
  cases p with
  | none =>
    refine ⟨by simp [calculateNextReview, hr], ?_⟩
    simp only [calculateNextReview]
    split_ifs <;> norm_num
  | some u =>
    obtain ⟨hrep, hint, hef⟩ := hvalid u rfl
    refine ⟨by simp [calculateNextReview, hr], ?_⟩
    simp only [calculateNextReview]
    split_ifs <;> try norm_num
    have hx : (1.3:ℚ) ≤ u.interval * u.efactor :=
      le_trans hef (le_mul_of_one_le_left (by linarith) hint)
    have h1 : (1:ℤ) ≤ round (u.interval * u.efactor) := by
      rw [round_eq]
      refine Int.le_floor.mpr ?_
      push_cast
      linarith
    exact_mod_cast lt_of_lt_of_le Int.zero_lt_one h1

/-- Witness for the amended C7 theorem at the concrete record with
repetition 2, interval 6, easeFactor 2.5 and rating 3. -/
theorem C7_amended_witness :
    (calculateNextReview (some ⟨"t", 6, 2, 2.5, 0⟩) 3 "t" 0).repetition = 2 + 1 ∧
    0 < (calculateNextReview (some ⟨"t", 6, 2, 2.5, 0⟩) 3 "t" 0).interval :=
  C7_amended_success_increments (some ⟨"t", 6, 2, 2.5, 0⟩) 3 "t" 0
    (by
      intro u hu
      have h := Option.some.inj hu
      subst h
      norm_num)
    (by norm_num)

/-- Claim C9: the due predicate is monotonic in the clock reading: with
the progress state unchanged, if a term is due at one instant it is due
at every later instant. -/
theorem C9_isDue_monotonic (p : Option UserProgress) (now later : ℚ)
    (h : now ≤ later) (hd : isDue p now = true) : isDue p later = true := by
  cases p with
  | none => rfl
  | some u =>
    simp only [isDue, decide_eq_true_eq] at hd ⊢
    linarith

/-- Witness for C9 at a concrete record due exactly at its review date. -/
theorem C9_witness : isDue (some ⟨"t", 1, 0, 2.5, 5⟩) 9 = true :=
  C9_isDue_monotonic (some ⟨"t", 1, 0, 2.5, 5⟩) 5 9 (by norm_num) (by decide)

/-- Catalog entry (interface Term, types.ts). -/
structure Term where
  id : String
  chapterId : String
  term : String
  definition : String
  aiExplanation : Option String
  deriving DecidableEq

/-- Session-scoped state of the App component (App.tsx): the pieces of
React state that the study-session logic reads and writes.  The progress
record object is modelled as a map from term id. -/
structure AppState where
  selectedChapter : Option String
  progress : String → Option UserProgress
  sessionDeck : List Term
  activeCardIndex : ℕ
  sessionStartTime : Option ℚ
  totalStudyTime : ℚ
  currentSessionDuration : ℚ

/-- Embedding of stopSessionTimer (App.tsx, lines 85-93); Date.now() is
the ambientNow parameter. -/
def stopSessionTimer (s : AppState) (ambientNow : ℚ) : AppState :=
  match s.sessionStartTime with
  | none => s
  | some start =>
    let sessionSeconds := (ambientNow - start) / 1000
    { s with totalStudyTime := s.totalStudyTime + sessionSeconds
             currentSessionDuration := sessionSeconds
             sessionStartTime := none }

/-- Embedding of handleRate (App.tsx, lines 95-125).  The React setState
calls commit together at the end of the handler; crucially, the cursor
check on line 116 reads sessionDeck from the render closure, i.e. the
deck BEFORE the recycle append of line 112, which this embedding
reproduces by comparing against s.sessionDeck.length. -/
def handleRate (s : AppState) (rating : ℚ) (ambientNow : ℚ) : AppState :=
  if s.selectedChapter = none ∨ s.sessionDeck.length = 0 then s
  else
    match s.sessionDeck.get? s.activeCardIndex with
    | none => s
    | some currentTerm =>
      let newTermProgress :=
        calculateNextReview (s.progress currentTerm.id) rating currentTerm.id ambientNow
      let progress' : String → Option UserProgress :=
        fun k => if k = currentTerm.id then some newTermProgress else s.progress k
      let deck' := if rating < 3 then s.sessionDeck ++ [currentTerm] else s.sessionDeck
      if s.activeCardIndex < s.sessionDeck.length - 1 then
        { s with progress := progress'
                 sessionDeck := deck'
                 activeCardIndex := s.activeCardIndex + 1 }
      else
        let s' := stopSessionTimer
          { s with progress := progress', sessionDeck := deck' } ambientNow
        { s' with sessionDeck := [], activeCardIndex := 0 }

/-- App.tsx line 411 renders the running session iff sessionDeck is
nonempty; an empty deck with a chapter still selected shows the Session
Complete view. -/
def isSessionActiveView (s : AppState) : Bool :=
  decide (0 < s.sessionDeck.length)

/-- Embedding of the deck construction in startMixedSession (App.tsx,
lines 154-167).  The in-place random shuffle of step 2 is modelled by
taking the already-shuffled list as input; step 3 slices the first
max(1, min(mixedCount, |allTerms|)) entries. -/
def startMixedDeck (shuffledTerms : List Term) (mixedCount : ℤ) : List Term :=
  shuffledTerms.take (max 1 (min mixedCount (shuffledTerms.length : ℤ))).toNat

/-- Test fixture: a first catalog term. -/
def termAlpha : Term :=
  { id := "a", chapterId := "c1", term := "Alpha", definition := "first",
    aiExplanation := none }

/-- Test fixture: a second catalog term. -/
def termBeta : Term :=
  { id := "b", chapterId := "c1", term := "Beta", definition := "second",
    aiExplanation := none }

/-- Test fixture: an active session positioned on its last (and only)
card. -/
def sessionOnLastCard : AppState :=
  { selectedChapter := some "c1"
    progress := fun _ => none
    sessionDeck := [termAlpha]
    activeCardIndex := 0
    sessionStartTime := some 0
    totalStudyTime := 0
    currentSessionDuration := 0 }

/-- Claim C2 (code bug): rating the last queued card below 3 does NOT
keep the session active.  The cursor check reads the pre-append deck
length, so the handler takes the completion branch: the deck is cleared
(dropping the just-recycled copy), the cursor resets, and the app renders
Session Complete instead of presenting the recycled card. -/
theorem C2_last_card_low_rating_ends_session :
    (handleRate sessionOnLastCard 2 1000).sessionDeck = [] ∧
    isSessionActiveView (handleRate sessionOnLastCard 2 1000) = false ∧
    (handleRate sessionOnLastCard 2 1000).activeCardIndex = 0 := by
  refine ⟨rfl, rfl, rfl⟩

/-- Claim C5 counterexample: a mixed session requested with n = 0 over a
two-term pool draws 1 card, not min(0, 2) = 0: the code clamps the slice
bound below at 1. -/
theorem C5_counterexample :
    (startMixedDeck [termAlpha, termBeta] 0).length = 1 ∧
    (startMixedDeck [termAlpha, termBeta] 0).length ≠
      min 0 ([termAlpha, termBeta] : List Term).length := by
  constructor <;> decide

/-- Claim C5 amended: a mixed session over a shuffled non-empty pool
draws exactly max(1, min(n, |pool|)) terms (equal to min(n, |pool|)
whenever n is at least 1), every one of them from the pool. -/
theorem C5_amended_mixed_deck_size (pool shuffled : List Term) (n : ℤ)
    (hperm : shuffled.Perm pool) (hpool : pool ≠ []) :
    (startMixedDeck shuffled n).length = (max 1 (min n (pool.length : ℤ))).toNat ∧
    ∀ t ∈ startMixedDeck shuffled n, t ∈ pool := by
  have hlen : shuffled.length = pool.length := hperm.length_eq
  constructor
  · have h1 : 1 ≤ pool.length := List.length_pos.mpr hpool
    simp only [startMixedDeck, List.length_take, hlen]
    omega
  · intro t ht
    exact hperm.subset (List.mem_of_mem_take ht)

/-- Witness for the amended C5 theorem: a request for 5 cards over a
two-term pool draws max(1, min(5, 2)) = 2 cards. -/
theorem C5_amended_witness :
    (startMixedDeck [termAlpha, termBeta] 5).length =
      (max 1 (min 5 ((([termAlpha, termBeta] : List Term).length : ℤ)))).toNat ∧
    ∀ t ∈ startMixedDeck [termAlpha, termBeta] 5, t ∈ [termAlpha, termBeta] :=
  C5_amended_mixed_deck_size [termAlpha, termBeta] [termAlpha, termBeta] 5
    (List.Perm.refl _) (by decide)

/-- Question kind (type QuestionType, Quiz.tsx line 33). -/
inductive QuestionType where
  | multipleChoice
  | input
  deriving DecidableEq

/-- Generated quiz question (interface Question, Quiz.tsx lines 35-39);
the optional options field is the empty list for input questions, as the
source initialises it. -/
structure Question where
  term : Term
  type : QuestionType
  options : List String
  deriving DecidableEq

/-- Embedding of the per-term question construction in generateQuiz
(Quiz.tsx, lines 122-137).  The 50/50 kind draw is the qt argument; the
random shuffle of the filtered distractor pool is modelled by taking the
already-shuffled list shuffledOthers as input (its permutation relation
to terms.filter(t.id !== term.id) is a hypothesis of the theorems); the
final shuffle of the combined options is likewise modelled by a
permutation hypothesis. -/
def mkQuizQuestion (term : Term) (qt : QuestionType) (shuffledOthers : List Term) : Question :=
  { term := term
    type := qt
    options :=
      match qt with
      | .multipleChoice => (shuffledOthers.take 3).map Term.term ++ [term.term]
      | .input => [] }

/-- In a pool with pairwise distinct ids containing t, filtering out t's
id removes exactly one element. -/
theorem filter_ne_id_length :
    ∀ (pool : List Term) (t : Term), t ∈ pool → (pool.map Term.id).Nodup →
      (pool.filter (fun u => u.id != t.id)).length + 1 = pool.length := by
  intro pool t
  induction pool with
  | nil => intro h; cases h
  | cons a l ih =>
    intro hmem hnodup
    simp only [List.map_cons, List.nodup_cons] at hnodup
    obtain ⟨ha, hl⟩ := hnodup
    rcases List.mem_cons.mp hmem with rfl | hmem'
    · have hkeep : l.filter (fun u => u.id != t.id) = l := by
        refine List.filter_eq_self.mpr ?_
        intro u hu
        simp only [bne_iff_ne, ne_eq, decide_eq_true_eq]
        intro h
        exact ha (h ▸ List.mem_map_of_mem Term.id hu)
      simp [List.filter_cons, hkeep]
    · have hne : a.id ≠ t.id := by
        intro h
        exact ha (h ▸ List.mem_map_of_mem Term.id hmem')
      have hrec := ih hmem' hl
      simp only [List.filter_cons, bne_iff_ne, ne_eq, hne, not_false_iff,
        decide_true_eq_true, if_true, List.length_cons]
      omega

/-- Claim C10: in any pool of at least one term with pairwise distinct
ids, a term drawn with the multiple-choice kind still yields a
multiple-choice question even when the pool has fewer than 4 terms: the
construction is total (no error path exists) and the kind is not forced
to free-text; the option list holds the correct term's display string
plus the display strings of min(|pool| - 1, 3) distinct other pool
terms, so it may have fewer than 4 entries. -/
theorem C10_small_pool_multiple_choice (pool : List Term) (t : Term)
    (shuffledOthers : List Term) (finalOpts : List String)
    (hmem : t ∈ pool) (hids : (pool.map Term.id).Nodup)
    (hperm : shuffledOthers.Perm (pool.filter (fun u => u.id != t.id)))
    (hopts : finalOpts.Perm
      (mkQuizQuestion t QuestionType.multipleChoice shuffledOthers).options) :
    (mkQuizQuestion t QuestionType.multipleChoice shuffledOthers).type =
      QuestionType.multipleChoice ∧
    finalOpts.length = min (pool.length - 1) 3 + 1 ∧
    t.term ∈ finalOpts ∧
    (shuffledOthers.take 3).length = min (pool.length - 1) 3 ∧
    (∀ u ∈ shuffledOthers.take 3, u ∈ pool ∧ u.id ≠ t.id) ∧
    ((shuffledOthers.take 3).map Term.id).Nodup := by
  have hfl := filter_ne_id_length pool t hmem hids
  have hslen : shuffledOthers.length = pool.length - 1 := by
    have := hperm.length_eq
    omega
  have htake : (shuffledOthers.take 3).length = min (pool.length - 1) 3 := by
    simp only [List.length_take, hslen]
    omega
  refine ⟨rfl, ?_, ?_, htake, ?_, ?_⟩
  · have := hopts.length_eq
    simp only [mkQuizQuestion, List.length_append, List.length_map,
      List.length_take, hslen, List.length_singleton] at this
    omega
  · refine hopts.mem_iff.mpr ?_
    simp [mkQuizQuestion]
  · intro u hu
    have hu' : u ∈ shuffledOthers := List.mem_of_mem_take hu
    have hf := hperm.subset hu'
    rw [List.mem_filter] at hf
    exact ⟨hf.1, by simpa [bne_iff_ne] using hf.2⟩
  · have hpn : ((pool.filter (fun u => u.id != t.id)).map Term.id).Nodup :=
      hids.sublist ((pool.filter_sublist).map Term.id)
    have hsn : (shuffledOthers.map Term.id).Nodup :=
      ((hperm.map Term.id).nodup_iff).mpr hpn
    have : ((shuffledOthers.take 3).map Term.id).Sublist (shuffledOthers.map Term.id) :=
      (List.take_sublist 3 shuffledOthers).map Term.id
    exact hsn.sublist this

/-- Witness for C10 over the concrete two-term pool [termAlpha,
termBeta] (fewer than 4 terms), with termAlpha the quizzed term: the
multiple-choice question is produced with 2 options. -/
theorem C10_witness :
    (mkQuizQuestion termAlpha QuestionType.multipleChoice [termBeta]).type =
      QuestionType.multipleChoice ∧
    (mkQuizQuestion termAlpha QuestionType.multipleChoice [termBeta]).options.length =
      min (([termAlpha, termBeta] : List Term).length - 1) 3 + 1 ∧
    termAlpha.term ∈ (mkQuizQuestion termAlpha QuestionType.multipleChoice [termBeta]).options ∧
    (([termBeta] : List Term).take 3).length =
      min (([termAlpha, termBeta] : List Term).length - 1) 3 ∧
    (∀ u ∈ ([termBeta] : List Term).take 3, u ∈ [termAlpha, termBeta] ∧ u.id ≠ termAlpha.id) ∧
    ((([termBeta] : List Term).take 3).map Term.id).Nodup :=
  C10_small_pool_multiple_choice [termAlpha, termBeta] termAlpha [termBeta] _
    (by decide) (by decide) (List.Perm.refl _) (List.Perm.refl _)

set_option maxRecDepth 8192

namespace Quiz

/-- Normalisation step of checkAnswerSmart (Quiz.tsx line 60):
lowercase, then keep only characters in [a-z0-9].  JavaScript
toLowerCase is modelled on the ASCII range by Char.toLower; every
character the filter keeps is unaffected by the difference. -/
def normalize (s : List Char) : List Char :=
  (s.map Char.toLower).filter (fun c =>
    decide (('a' ≤ c ∧ c ≤ 'z') ∨ ('0' ≤ c ∧ c ≤ '9')))

/-- One inner iteration block of the Levenshtein matrix fill (Quiz.tsx
lines 46-54): builds row j beyond its leading j from the previous row.
Arguments: remaining characters of a (the i loop), the previous row
starting at column i-1, and the value just written at matrix[j][i-1]. -/
def levRowAux (c : Char) : List Char → List ℕ → ℕ → List ℕ
  | x :: xs, p0 :: p1 :: ps, left =>
    let v := min (left + 1) (min (p1 + 1) (p0 + (if x = c then 0 else 1)))
    v :: levRowAux c xs (p1 :: ps) v
  | _, _, _ => []

/-- The outer j loop of the matrix fill: fold the rows for the
characters of b, starting from row 0 = [0, 1, ..., |a|]. -/
def levRows (a : List Char) : List Char → List ℕ → ℕ → List ℕ
  | [], prev, _ => prev
  | y :: ys, prev, j => levRows a ys (j :: levRowAux y a prev j) (j + 1)

/-- Embedding of getLevenshteinDistance (Quiz.tsx, lines 42-57): the
dynamic-programming matrix is computed row by row; the result is
matrix[b.length][a.length], the last entry of the final row. -/
def getLevenshteinDistance (a b : List Char) : ℕ :=
  (levRows a b (List.range (a.length + 1)) 1).getLastD 0

/-- Scanner for the global regex match of /\(([^)]+)\)/g (Quiz.tsx line
71): left to right, a match is a literal open paren, one or more
non-close-paren characters, then a close paren; buf (reversed) holds the
pending segment when inside an open paren.  An empty pair and an
unclosed trailing segment match nothing, exactly as the regex engine
behaves. -/
def extractParensLoop : List Char → Option (List Char) → List (List Char)
  | [], _ => []
  | c :: rest, none =>
    if c = '(' then extractParensLoop rest (some [])
    else extractParensLoop rest none
  | c :: rest, some buf =>
    if c = ')' then
      if buf.isEmpty then extractParensLoop rest none
      else buf.reverse :: extractParensLoop rest none
    else extractParensLoop rest (some (c :: buf))

/-- All parenthesised segments of the term, in order; the source pushes
normalize of each full match "(...)", and normalize discards the two
parens, so returning the inside only is equivalent. -/
def extractParens (s : List Char) : List (List Char) :=
  extractParensLoop s none

/-- Scanner for replace(/\([^)]+\)/g, '') (Quiz.tsx line 76): complete
matches are deleted; an empty pair "()" and an unclosed trailing "("
segment are not matches and are kept literally.  buf (reversed) holds
the pending segment including its open paren. -/
def stripParensLoop : List Char → Option (List Char) → List Char
  | [], none => []
  | [], some buf => buf.reverse
  | c :: rest, none =>
    if c = '(' then stripParensLoop rest (some [c])
    else c :: stripParensLoop rest none
  | c :: rest, some buf =>
    if c = ')' then
      if buf.length = 1 then buf.reverse ++ ')' :: stripParensLoop rest none
      else stripParensLoop rest none
    else stripParensLoop rest (some (c :: buf))

/-- The term with every parenthesised segment removed. -/
def stripParens (s : List Char) : List Char :=
  stripParensLoop s none

/-- Whitespace for String.prototype.trim, restricted to the common
ASCII whitespace characters. -/
def isWhitespaceChar (c : Char) : Bool :=
  c == ' ' || c == '\t' || c == '\n' || c == '\r'

/-- trim: drop whitespace from both ends. -/
def trimList (s : List Char) : List Char :=
  ((s.dropWhile isWhitespaceChar).reverse.dropWhile isWhitespaceChar).reverse

/-- The fuzzy tolerance Math.floor(cand.length * 0.25) (Quiz.tsx line
91).  0.25 is exactly representable, so the JavaScript product is the
exact rational length/4 and its floor is natural division by 4; the
lemma below certifies the equality with the floor form. -/
def allowedErrorsOf (candLength : ℕ) : ℕ := candLength / 4

/-- The embedded tolerance agrees with floor(candidateLength x 0.25). -/
theorem allowedErrorsOf_eq_floor (L : ℕ) :
    (allowedErrorsOf L : ℤ) = ⌊(L : ℚ) * 0.25⌋ := by
  have h025 : (L : ℚ) * 0.25 = (L : ℚ) / 4 := by
    rw [show (0.25:ℚ) = 1/4 by norm_num]
    ring
  rw [allowedErrorsOf, h025]
  symm
  rw [Int.floor_eq_iff]
  constructor
  · rw [le_div_iff₀ (by norm_num : (0:ℚ) < 4)]
    have h := Nat.div_mul_le_self L 4
    push_cast
    exact_mod_cast h
  · rw [div_lt_iff₀ (by norm_num : (0:ℚ) < 4)]
    have h : L < (L / 4 + 1) * 4 := by omega
    push_cast
    exact_mod_cast h

/-- The candidate list built by checkAnswerSmart (Quiz.tsx lines 66-82),
in push order: the normalized target, each parenthesised segment
normalized, the term without parentheticals (when nonempty after trim)
normalized, and each slash-delimited segment normalized when the term
contains a slash. -/
def candidatesOf (correctTerm : List Char) : List (List Char) :=
  let target := normalize correctTerm
  let parenCands := (extractParens correctTerm).map normalize
  let withoutParens := trimList (stripParens correctTerm)
  let slashCands :=
    if correctTerm.contains '/' then (List.splitOn '/' correctTerm).map normalize
    else []
  [target] ++ parenCands ++
    (if withoutParens.isEmpty then [] else [normalize withoutParens]) ++ slashCands

/-- Embedding of checkAnswerSmart (Quiz.tsx, lines 59-97): reject empty
normalized input; accept on exact normalized match with the target or
any candidate; otherwise accept iff some candidate longer than 3
characters is within the 25 percent Levenshtein tolerance. -/
def checkAnswerSmart (input correctTerm : List Char) : Bool :=
  let user := normalize input
  let target := normalize correctTerm
  if user.isEmpty then false
  else if user = target then true
  else
    let candidates := candidatesOf correctTerm
    if candidates.contains user then true
    else candidates.any (fun cand =>
      decide (3 < cand.length) &&
      decide (getLevenshteinDistance user cand ≤ allowedErrorsOf cand.length))

/-- With an empty first string, every matrix row of the distance
computation is the singleton [j]. -/
theorem levRows_nil (ys : List Char) :
    ∀ (prev : List ℕ) (j : ℕ),
      levRows [] ys prev j = if ys.isEmpty then prev else [j + ys.length - 1] := by
  induction ys with
  | nil => intro prev j; rfl
  | cons y ys ih =>
    intro prev j
    have h1 : levRows [] (y :: ys) prev j = levRows [] ys [j] (j + 1) := rfl
    rw [h1, ih]
    rcases ys with _ | ⟨z, zs⟩
    · simp
    · rw [if_neg (by simp), if_neg (by simp)]
      simp only [List.length_cons, List.cons.injEq, and_true]
      omega

/-- The distance from the empty string is the length of the other
string. -/
theorem getLevenshteinDistance_nil (b : List Char) :
    getLevenshteinDistance [] b = b.length := by
  unfold getLevenshteinDistance
  rw [levRows_nil]
  rcases b with _ | ⟨y, ys⟩
  · decide
  · rw [if_neg (by simp)]
    have hsing : ∀ (m : ℕ), ([m] : List ℕ).getLastD 0 = m := fun m => rfl
    rw [hsing]
    simp only [List.length_nil, List.length_cons]
    omega

/-- Claim C8: acceptance by checkAnswerSmart is characterised so that
(forward half) any candidate of normalized length above 3 within the
25 percent Levenshtein tolerance suffices for acceptance, and (converse
half) every acceptance is an exact match against the candidate set or a
fuzzy match against some candidate of length above 3 — so candidates of
length at most 3 are never accepted through fuzzy matching. -/
theorem C8_fuzzy_characterisation (input correctTerm : List Char) :
    (∀ cand ∈ candidatesOf correctTerm, 3 < cand.length →
        (getLevenshteinDistance (normalize input) cand : ℤ) ≤
          ⌊(cand.length : ℚ) * 0.25⌋ →
        checkAnswerSmart input correctTerm = true) ∧
    (checkAnswerSmart input correctTerm = true →
      normalize input ≠ [] ∧
        (normalize input ∈ candidatesOf correctTerm ∨
          ∃ cand ∈ candidatesOf correctTerm, 3 < cand.length ∧
            (getLevenshteinDistance (normalize input) cand : ℤ) ≤
              ⌊(cand.length : ℚ) * 0.25⌋)) := by
  constructor
  · intro cand hcand hlen hdist
    rw [← allowedErrorsOf_eq_floor] at hdist
    have hdist' : getLevenshteinDistance (normalize input) cand ≤
        allowedErrorsOf cand.length := by exact_mod_cast hdist
    by_cases hu : (normalize input).isEmpty
    · exfalso
      have hunil : normalize input = [] := by simpa using hu
      rw [hunil, getLevenshteinDistance_nil, allowedErrorsOf] at hdist'
      omega
    · have hu' : (normalize input).isEmpty = false := by simpa using hu
      simp only [checkAnswerSmart, hu', Bool.false_eq_true, if_false]
      split_ifs with h1 h2
      · rfl
      · rfl
      · rw [List.any_eq_true]
        exact ⟨cand, hcand, by simp [hlen, hdist']⟩
  · intro h
    simp only [checkAnswerSmart] at h
    split_ifs at h with hu h1 h2
    · have hne : normalize input ≠ [] := fun hnil => hu (by simp [hnil])
      refine ⟨hne, Or.inl ?_⟩
      rw [h1]
      exact List.mem_cons_self _ _
    · have hne : normalize input ≠ [] := fun hnil => hu (by simp [hnil])
      exact ⟨hne, Or.inl (List.elem_iff.mp h2)⟩
    · have hne : normalize input ≠ [] := fun hnil => hu (by simp [hnil])
      rw [List.any_eq_true] at h
      obtain ⟨cand, hc, hp⟩ := h
      simp only [Bool.and_eq_true, decide_eq_true_eq] at hp
      obtain ⟨hl3, hld⟩ := hp
      refine ⟨hne, Or.inr ⟨cand, hc, hl3, ?_⟩⟩
      rw [← allowedErrorsOf_eq_floor]
      exact_mod_cast hld

/-- Witness for C8: the misspelling progrm of program (distance 1,
within floor(7 x 0.25) = 1) is accepted. -/
theorem C8_witness :
    checkAnswerSmart "progrm".toList "program".toList = true := by
  refine (C8_fuzzy_characterisation "progrm".toList "program".toList).1
    (normalize "program".toList) ?_ ?_ ?_
  · exact List.mem_cons_self _ _
  · decide
  · have hd : getLevenshteinDistance (normalize "progrm".toList)
        (normalize "program".toList) = 1 := by decide
    have hl : (normalize "program".toList).length = 7 := by decide
    rw [hd, hl]
    refine Int.le_floor.mpr ?_
    push_cast
    norm_num

end Quiz
